import Mathlib

/-!
# curl_utility: `Request`, `Process`, `getParallelCount`, `getURLS`

A shallow embedding of `curl.go`. Go strings are Lean strings, byte slices are lists of
naturals (each read modulo 256 where it matters), `int` is `Int` (the code only compares
and copies its integers), and the goroutines of `Process` are a step function on an explicit
pool state driven by a schedule.
-/

namespace Curl

/-!
## crypto/md5

The hash `Request` streams the body into, after RFC 1321: `md5.New`, `Write` and `Sum` of the
running digest, and the one-shot `md5.Sum` the tests compare with. Words are naturals below
`2 ^ 32`.
-/

namespace md5

def BlockSize : Nat := 64

def Size : Nat := 16

/-- The sine table of RFC 1321: entry `i` is `floor (2^32 * |sin (i + 1)|)`. -/
def table : List Nat :=
  [0xd76aa478, 0xe8c7b756, 0x242070db, 0xc1bdceee, 0xf57c0faf, 0x4787c62a, 0xa8304613, 0xfd469501,
   0x698098d8, 0x8b44f7af, 0xffff5bb1, 0x895cd7be, 0x6b901122, 0xfd987193, 0xa679438e, 0x49b40821,
   0xf61e2562, 0xc040b340, 0x265e5a51, 0xe9b6c7aa, 0xd62f105d, 0x02441453, 0xd8a1e681, 0xe7d3fbc8,
   0x21e1cde6, 0xc33707d6, 0xf4d50d87, 0x455a14ed, 0xa9e3e905, 0xfcefa3f8, 0x676f02d9, 0x8d2a4c8a,
   0xfffa3942, 0x8771f681, 0x6d9d6122, 0xfde5380c, 0xa4beea44, 0x4bdecfa9, 0xf6bb4b60, 0xbebfbc70,
   0x289b7ec6, 0xeaa127fa, 0xd4ef3085, 0x04881d05, 0xd9d4d039, 0xe6db99e5, 0x1fa27cf8, 0xc4ac5665,
   0xf4292244, 0x432aff97, 0xab9423a7, 0xfc93a039, 0x655b59c3, 0x8f0ccc92, 0xffeff47d, 0x85845dd1,
   0x6fa87e4f, 0xfe2ce6e0, 0xa3014314, 0x4e0811a1, 0xf7537e82, 0xbd3af235, 0x2ad7d2bb, 0xeb86d391]

/-- Per-round left-rotation amounts of RFC 1321. -/
def shifts : List Nat :=
  [7, 12, 17, 22, 7, 12, 17, 22, 7, 12, 17, 22, 7, 12, 17, 22,
   5, 9, 14, 20, 5, 9, 14, 20, 5, 9, 14, 20, 5, 9, 14, 20,
   4, 11, 16, 23, 4, 11, 16, 23, 4, 11, 16, 23, 4, 11, 16, 23,
   6, 10, 15, 21, 6, 10, 15, 21, 6, 10, 15, 21, 6, 10, 15, 21]

/-- Addition of `uint32` values. -/
def add32 (a b : Nat) : Nat := (a + b) % 2 ^ 32

/-- Bitwise complement of a `uint32`. -/
def not32 (a : Nat) : Nat := (a % 2 ^ 32) ^^^ 0xffffffff

/-- Left rotation of a `uint32` (`bits.RotateLeft32`). -/
def rotl32 (x c : Nat) : Nat := ((x <<< c) ||| (x >>> (32 - c))) % 2 ^ 32

/-- Little-endian `uint32` at word index `g` of a block of bytes. -/
def word (p : List Nat) (g : Nat) : Nat :=
  (p.getD (4 * g) 0) % 256 + ((p.getD (4 * g + 1) 0) % 256) <<< 8 +
    ((p.getD (4 * g + 2) 0) % 256) <<< 16 + ((p.getD (4 * g + 3) 0) % 256) <<< 24

/-- The four chaining words `s[0..3]` of the digest. -/
structure Chain where
  a : Nat
  b : Nat
  c : Nat
  d : Nat
deriving DecidableEq, Repr

/-- One of the 64 operations of the compression function on block `p`. -/
def round (p : List Nat) (v : Chain) (i : Nat) : Chain :=
  let f :=
    if i < 16 then (v.b &&& v.c) ||| (not32 v.b &&& v.d)
    else if i < 32 then (v.d &&& v.b) ||| (not32 v.d &&& v.c)
    else if i < 48 then v.b ^^^ v.c ^^^ v.d
    else v.c ^^^ (v.b ||| not32 v.d)
  let g :=
    if i < 16 then i
    else if i < 32 then (5 * i + 1) % 16
    else if i < 48 then (3 * i + 5) % 16
    else (7 * i) % 16
  let t := add32 (add32 (add32 f v.a) (table.getD i 0)) (word p g)
  { a := v.d, b := add32 v.b (rotl32 t (shifts.getD i 0)), c := v.b, d := v.c }

/-- The compression of one 64-byte block into the chaining words. -/
def blockOne (s : Chain) (p : List Nat) : Chain :=
  let v := (List.range 64).foldl (round p) s
  { a := add32 s.a v.a, b := add32 s.b v.b, c := add32 s.c v.c, d := add32 s.d v.d }

/-- The function `block`: compresses the first `n` whole blocks of `p`, returning the new
chaining words and the bytes not consumed. -/
def block : Nat → Chain → List Nat → Chain × List Nat
  | 0, s, p => (s, p)
  | n + 1, s, p => block n (blockOne s (p.take BlockSize)) (p.drop BlockSize)

/-- The running hash `digest`: chaining words `s`, the bytes `x[:nx]` of the unfinished
block, and the number `len` of bytes written so far (a `uint64`). -/
structure digest where
  s : Chain
  x : List Nat
  len : Nat
deriving DecidableEq, Repr

/-- The function `md5.New` (`Reset`): the initial state. -/
def New : digest :=
  { s := { a := 0x67452301, b := 0xefcdab89, c := 0x98badcfe, d := 0x10325476 }, x := [], len := 0 }

/-- The method `Write`: the new bytes join the unfinished block, every whole block is
compressed, and what remains is kept for later. -/
def digest.Write (d : digest) (p : List Nat) : digest :=
  let data := d.x ++ p
  let r := block (data.length / BlockSize) d.s data
  { s := r.1, x := r.2, len := (d.len + p.length) % 2 ^ 64 }

/-- Little-endian bytes of a value, `n` of them (`binary.LittleEndian.PutUint32/64`). -/
def putLE : Nat → Nat → List Nat
  | 0, _ => []
  | n + 1, v => v % 256 :: putLE n (v / 256)

/-- The method `checkSum`: pads with `0x80`, zeros and the bit length, and renders the
chaining words in little-endian order. -/
def digest.checkSum (d : digest) : List Nat :=
  let pad := ((55 + 2 ^ 64 - d.len % 2 ^ 64) % 2 ^ 64) % 64
  let tmp := 0x80 :: (List.replicate pad 0 ++ putLE 8 ((d.len <<< 3) % 2 ^ 64))
  let e := d.Write tmp
  putLE 4 e.s.a ++ putLE 4 e.s.b ++ putLE 4 e.s.c ++ putLE 4 e.s.d

/-- The method `Sum(nil)`: the checksum of everything written, leaving the state as is. -/
def digest.Sum (d : digest) : List Nat := d.checkSum

/-- The function `md5.Sum`: the digest of a whole byte slice. -/
def Sum (data : List Nat) : List Nat := (New.Write data).checkSum

end md5

/-- A lowercase hexadecimal digit. -/
def hexDigit (n : Nat) : Char :=
  "0123456789abcdef".toList.getD n '0'

/-- The verb `%x` of `fmt.Sprintf` on a byte slice: two lowercase hex digits per byte. -/
def hex (bs : List Nat) : String :=
  String.mk (bs.flatMap fun b => [hexDigit (b % 256 / 16), hexDigit (b % 16)])

/-- The bytes of a string (`[]byte(s)`). -/
def bytesOf (s : String) : List Nat := s.toUTF8.data.toList.map UInt8.toNat


/-- The function `strconv.Itoa`: the decimal rendering of an `int`. -/
def Itoa (i : Int) : String :=
  match i with
  | Int.ofNat m => Nat.repr m
  | Int.negSucc m => "-" ++ Nat.repr (m + 1)

/-! ## The HTTP client as seen by `Request` -/

/-- The error of the body read that ends the loop: `io.EOF`, or another error with the
text of its `Error()`. -/
inductive ReadError where
  | EOF
  | other (text : String)
deriving DecidableEq, Repr

/-- What `Request` observes of `resp.Body`: the chunks `buffer[0:length]` of the reads that
return a nil error, then the chunk and the error of the first read that returns a non-nil
error. -/
structure Body where
  reads : List (List Nat)
  last : List Nat
  err : ReadError
deriving DecidableEq, Repr

/-- The outcome of `client.Get(url)`: an error, with what `os.IsTimeout` says of it, or a
response with its `StatusCode` and `Body`. -/
inductive GetResult where
  | failed (isTimeout : Bool)
  | response (StatusCode : Int) (body : Body)
deriving DecidableEq, Repr

/-- The `*http.Client`, reduced to what `Get` returns for each URL. -/
abbrev Client := String → GetResult

def StatusOK : Int := 200

/-- The read loop of `Request`: every chunk read with a nil error is written to the hasher;
the read that returns an error ends the loop, with the digest on `io.EOF` (after writing the
bytes that came with it) and with the error text otherwise. -/
def readLoop (result : String) : md5.digest → List (List Nat) → List Nat → ReadError → String
  | hasher, [], last, ReadError.EOF => result ++ (" " ++ hex (hasher.Write last).Sum)
  | _, [], _, ReadError.other text => result ++ (" error:" ++ text)
  | hasher, chunk :: rest, last, err => readLoop result (hasher.Write chunk) rest last err

/-- The function `Request`. -/
def Request (client : Client) (url : String) : String :=
  let result := url
  match client url with
  | GetResult.failed isTimeout =>
    if isTimeout then result ++ " error:timeout" else result ++ " error:unknown"
  | GetResult.response StatusCode body =>
    if StatusCode ≠ StatusOK then result ++ (" error:" ++ Itoa StatusCode)
    else readLoop result md5.New body.reads body.last body.err


/-! ## `getParallelCount` -/

def limitParallelReq : Int := 10

def defaultParallelReq : Int := 1

/-- The function `getParallelCount` (the log lines have no effect on the value). -/
def getParallelCount (parallelCount urlsCount : Int) : Int :=
  let parallelCount := if parallelCount < 1 then defaultParallelReq else parallelCount
  let parallelCount := if parallelCount > limitParallelReq then limitParallelReq else parallelCount
  let parallelCount := if parallelCount > urlsCount then urlsCount else parallelCount
  parallelCount

/-! ## `getURLS` -/

/-- The function `strings.HasPrefix`. -/
def HasPrefix (s pre : String) : Bool := pre.toList.isPrefixOf s.toList

/-- The errors `getURLS` returns: `NoUrlsError`, or the error of `url.ParseRequestURI`. -/
inductive Error where
  | NoUrlsError
  | parse (text : String)
deriving DecidableEq, Repr

/-- The first statement of the loop body of `getURLS`:
`if !strings.HasPrefix(val, "http") { val = "http://" + val }`. -/
def normalizeArg (val : String) : String :=
  if !HasPrefix val "http" then "http://" ++ val else val

/-- The loop of `getURLS` over the remaining arguments. `ParseRequestURI` stands for
`url.ParseRequestURI`, of which the code uses only the error (`none` is a nil error);
`storage` is the `map[string]bool`. -/
def getURLS.loop (ParseRequestURI : String → Option String) :
    List String → List String → (String → Option Bool) → List String × Option Error
  | [], result, _ => (result, none)
  | val :: rest, result, storage =>
    let val := normalizeArg val
    match ParseRequestURI val with
    | some err => (result, some (Error.parse err))
    | none =>
      let result := if (storage val).isNone then result ++ [val] else result
      getURLS.loop ParseRequestURI rest result (fun k => if k = val then some true else storage k)

/-- The function `getURLS`. -/
def getURLS (ParseRequestURI : String → Option String) (urls : List String) :
    List String × Option Error :=
  if urls.length = 0 then ([], some Error.NoUrlsError)
  else getURLS.loop ParseRequestURI urls [] (fun _ => none)

/-- The list with every repetition after the first removed: each distinct element once, at
the place of its first occurrence. -/
def firstOccurrences : List String → List String
  | [] => []
  | x :: xs => x :: (firstOccurrences xs).filter (fun y => decide (y ≠ x))

/-- The elements of a list not yet in `seen`, each at its first occurrence. -/
def unseen : List String → List String → List String
  | _, [] => []
  | seen, x :: xs => if x ∈ seen then unseen seen xs else x :: unseen (seen ++ [x]) xs

/-- A character allowed in a URI scheme (RFC 3986). -/
def isSchemeChar (c : Char) : Bool :=
  c.isAlphanum || c == '+' || c == '-' || c == '.'

/-- The argument begins with `<scheme>://`: a letter, then scheme characters, then `://`. -/
def hasSchemePrefix (val : String) : Bool :=
  let scheme := val.toList.takeWhile isSchemeChar
  (scheme.head?.map Char.isAlpha).getD false &&
    "://".toList.isPrefixOf (val.toList.drop scheme.length)

/-- The normalization as the usage text describes it: `http://` is prepended when the
argument has no scheme-like prefix. -/
def normalizeBySpec (val : String) : String :=
  if hasSchemePrefix val then val else "http://" ++ val

/-! ## `Process` -/

/-- Where a worker goroutine stands in its loop body. -/
inductive Worker where
  /-- At `url, ok := <-dCh`. -/
  | receive
  /-- At `resp := Request(cl, url)`. -/
  | request (url : String)
  /-- At `if result.Len() != 0`. -/
  | lenCheck (resp : String)
  /-- At `result.WriteString(" ")`. -/
  | writeSep (resp : String)
  /-- At `result.WriteString(resp)`. -/
  | writeResp (resp : String)
  /-- After `break`: the goroutine has returned. -/
  | done
deriving DecidableEq, Repr

/-- The state shared by the goroutines of `Process`: the URLs the main goroutine has not yet
handed over on `dataCh` (which it closes after the last one), the buffer `result`, and the
workers. -/
structure Pool where
  dataCh : List String
  result : String
  workers : List Worker
deriving DecidableEq, Repr

/-- One step of worker `i`. A receive takes the next URL, or finds the channel closed once
every URL has been taken. No step exists for a worker that has returned or does not exist. -/
def step (client : Client) (st : Pool) (i : Nat) : Option Pool :=
  match st.workers.get? i with
  | none => none
  | some Worker.receive =>
    match st.dataCh with
    | [] => some { st with workers := st.workers.set i Worker.done }
    | url :: rest =>
      some { st with dataCh := rest, workers := st.workers.set i (Worker.request url) }
  | some (Worker.request url) =>
    some { st with workers := st.workers.set i (Worker.lenCheck (Request client url)) }
  | some (Worker.lenCheck resp) =>
    let next := if st.result.utf8ByteSize ≠ 0 then Worker.writeSep resp else Worker.writeResp resp
    some { st with workers := st.workers.set i next }
  | some (Worker.writeSep resp) =>
    some { st with result := st.result ++ " ", workers := st.workers.set i (Worker.writeResp resp) }
  | some (Worker.writeResp resp) =>
    some { st with result := st.result ++ resp, workers := st.workers.set i Worker.receive }
  | some Worker.done => none

/-- The pool after the workers take their steps in the order of the schedule. -/
def run (client : Client) : Pool → List Nat → Option Pool
  | st, [] => some st
  | st, i :: sched =>
    match step client st i with
    | none => none
    | some st' => run client st' sched

/-- The function `Process` under a schedule of worker steps: it returns the buffer once every
URL has been handed over and every worker has returned (`wg.Wait()`), and has no result
for a schedule that does not get there. -/
def Process (client : Client) (parallelCount : Int) (urls : List String) (sched : List Nat) :
    Option String :=
  match run client
      { dataCh := urls, result := "", workers := List.replicate parallelCount.toNat Worker.receive }
      sched with
  | none => none
  | some st =>
    if st.dataCh = [] ∧ st.workers.all (fun w => decide (w = Worker.done)) = true then
      some st.result
    else none

/-- What lines 125-128 do to the buffer when no other goroutine runs in between. -/
def appendResp (result resp : String) : String :=
  if result.utf8ByteSize ≠ 0 then result ++ " " ++ resp else result ++ resp

/-- The buffer after a lone worker has processed the given URLs one after the other. -/
def drain (client : Client) : String → List String → String
  | result, [] => result
  | result, url :: rest => drain client (appendResp result (Request client url)) rest

/-- The buffer a lone worker ends with, from where it stands. -/
def outcome (client : Client) (dataCh : List String) (result : String) : Worker → String
  | Worker.receive => drain client result dataCh
  | Worker.request url => drain client (appendResp result (Request client url)) dataCh
  | Worker.lenCheck resp => drain client (appendResp result resp) dataCh
  | Worker.writeSep resp => drain client (result ++ " " ++ resp) dataCh
  | Worker.writeResp resp => drain client (result ++ resp) dataCh
  | Worker.done => result

/-- The transport of `TestProcess`: status 200 and the body registered for the URL (the empty
body for an unregistered one), read from a `bytes.Buffer`. -/
def testProcessClient : Client := fun url =>
  if url = "http://one" then GetResult.response 200 ⟨[bytesOf "one"], [], ReadError.EOF⟩
  else if url = "http://two" then GetResult.response 200 ⟨[bytesOf "two"], [], ReadError.EOF⟩
  else GetResult.response 200 ⟨[], [], ReadError.EOF⟩

/-- The transport of `TestRequestSuccess` for `http://smallBody.ru`, with the body `testBody`
arriving in three reads. -/
def testRequestClient : Client := fun _ =>
  GetResult.response 200 ⟨[bytesOf "te", bytesOf "stBo"], bytesOf "dy", ReadError.EOF⟩

/-- The transport of `TestRequestFailed`: status 408 with the body `timeout`. -/
def testFailedClient : Client := fun _ =>
  GetResult.response 408 ⟨[bytesOf "timeout"], [], ReadError.EOF⟩

/-! ## Theorems -/

theorem md5.block_append (n : Nat) : ∀ (s : md5.Chain) (a b : List Nat), a.length / 64 = n →
    md5.block ((a ++ b).length / md5.BlockSize) s (a ++ b) =
      md5.block (((md5.block n s a).2 ++ b).length / md5.BlockSize) (md5.block n s a).1
        ((md5.block n s a).2 ++ b) := by
  induction n with
  | zero => intro s a b _; rfl
  | succ k ih =>
    intro s a b h
    have hlen : 64 ≤ a.length := by omega
    have h1 : (a ++ b).length / md5.BlockSize = ((a.drop 64 ++ b).length / md5.BlockSize) + 1 := by
      simp only [List.length_append, List.length_drop, md5.BlockSize]; omega
    have h2 : (a.drop 64).length / 64 = k := by
      simp only [List.length_drop]; omega
    rw [h1]
    simp only [md5.block, md5.BlockSize]
    rw [List.take_append_of_le_length hlen, List.drop_append_of_le_length hlen]
    exact ih _ _ _ h2

theorem md5.Write_Write (d : md5.digest) (a b : List Nat) :
    (d.Write a).Write b = d.Write (a ++ b) := by
  have h := md5.block_append ((d.x ++ a).length / 64) d.s (d.x ++ a) b rfl
  simp only [md5.digest.Write, md5.BlockSize] at h ⊢
  rw [← List.append_assoc, h]
  congr 1
  simp only [List.length_append]
  omega

theorem readLoop_EOF (result : String) (chunks : List (List Nat)) (last : List Nat) :
    ∀ hasher : md5.digest, readLoop result hasher chunks last ReadError.EOF =
      result ++ (" " ++ hex (hasher.Write (chunks.flatten ++ last)).Sum) := by
  induction chunks with
  | nil => intro hasher; simp [readLoop]
  | cons c cs ih =>
    intro hasher
    simp only [readLoop, ih, md5.Write_Write, List.flatten, List.append_assoc]

theorem readLoop_other (result : String) (reads : List (List Nat)) (last : List Nat)
    (text : String) : ∀ hasher : md5.digest,
      readLoop result hasher reads last (ReadError.other text) = result ++ (" error:" ++ text) := by
  induction reads with
  | nil => intro hasher; rfl
  | cons c cs ih => intro hasher; simp only [readLoop]; exact ih _

set_option maxRecDepth 1000000 in
theorem md5.Sum_nil : hex (md5.Sum []) = "d41d8cd98f00b204e9800998ecf8427e" := by decide

theorem Request_ok_EOF (client : Client) (url : String) (reads : List (List Nat))
    (last : List Nat)
    (h : client url = GetResult.response 200 ⟨reads, last, ReadError.EOF⟩) :
    Request client url = url ++ " " ++ hex (md5.Sum (reads.flatten ++ last)) := by
  simp only [Request, h, StatusOK, ne_eq, not_true_eq_false, if_false, readLoop_EOF, md5.Sum,
    md5.digest.Sum, String.append_assoc]

/-- C1: on a 200 response whose body arrives as any finite sequence of nil-error reads ended
by a read returning `io.EOF` (with or without final bytes), `Request` returns the URL, a
space and the lowercase hex MD5 of all delivered bytes; any other chunking of the same bytes
gives the same result, and the empty body gives `d41d8cd98f00b204e9800998ecf8427e`. -/
theorem Request_digest_of_delivered_bytes (client : Client) (url : String)
    (reads : List (List Nat)) (last : List Nat)
    (h : client url = GetResult.response 200 ⟨reads, last, ReadError.EOF⟩) :
    Request client url = url ++ " " ++ hex (md5.Sum (reads.flatten ++ last)) ∧
    (∀ (client2 : Client) (reads2 : List (List Nat)) (last2 : List Nat),
      client2 url = GetResult.response 200 ⟨reads2, last2, ReadError.EOF⟩ →
      reads2.flatten ++ last2 = reads.flatten ++ last →
      Request client2 url = Request client url) ∧
    (reads.flatten ++ last = [] →
      Request client url = url ++ " d41d8cd98f00b204e9800998ecf8427e") := by
  refine ⟨Request_ok_EOF client url reads last h, ?_, ?_⟩
  · intro client2 reads2 last2 h2 hsame
    rw [Request_ok_EOF client url reads last h, Request_ok_EOF client2 url reads2 last2 h2, hsame]
  · intro hnil
    rw [Request_ok_EOF client url reads last h, hnil, md5.Sum_nil, String.append_assoc]
    rfl

set_option maxRecDepth 1000000 in
/-- The body `testBody` of `TestRequestSuccess`, delivered as `te`, `stBo`, `dy`, is reported
with the MD5 of `testBody`. -/
theorem Request_digest_of_delivered_bytes_witness :
    Request testRequestClient "http://smallBody.ru" =
      "http://smallBody.ru e6a136e3d246cf24c0978f3adfe9b562" :=
  (Request_digest_of_delivered_bytes testRequestClient "http://smallBody.ru"
    [bytesOf "te", bytesOf "stBo"] (bytesOf "dy") rfl).1.trans (by decide)

/-- C4: on a response whose status code is not 200, `Request` returns the URL followed by
` error:` and the decimal status code, whatever the body holds; a 408 gives
`<url> error:408`. -/
theorem Request_status_not_ok (client : Client) (url : String) (StatusCode : Int) (body : Body)
    (h : client url = GetResult.response StatusCode body) (hcode : StatusCode ≠ 200) :
    Request client url = url ++ " error:" ++ Itoa StatusCode ∧
    (StatusCode = 408 → Request client url = url ++ " error:408") := by
  have hreq : Request client url = url ++ " error:" ++ Itoa StatusCode := by
    simp only [Request, h, StatusOK, ne_eq, hcode, not_false_eq_true, if_true,
      String.append_assoc]
  refine ⟨hreq, ?_⟩
  intro h408
  have h3 : Itoa 408 = "408" := by decide
  rw [hreq, h408, h3, String.append_assoc]
  rfl

/-- The 408 response of `TestRequestFailed` gives `http://timeout.ru error:408`. -/
theorem Request_status_not_ok_witness :
    Request testFailedClient "http://timeout.ru" = "http://timeout.ru error:408" :=
  (Request_status_not_ok testFailedClient "http://timeout.ru" 408
    ⟨[bytesOf "timeout"], [], ReadError.EOF⟩ rfl (by decide)).2 rfl

/-- C5: when `client.Get` fails, `Request` returns `<url> error:timeout` if the error is a
timeout and `<url> error:unknown` otherwise; no body exists to be read. -/
theorem Request_transport_error (client : Client) (url : String) (isTimeout : Bool)
    (h : client url = GetResult.failed isTimeout) :
    (isTimeout = true → Request client url = url ++ " error:timeout") ∧
    (isTimeout = false → Request client url = url ++ " error:unknown") := by
  constructor
  · intro ht
    simp [Request, h, ht]
  · intro ht
    simp [Request, h, ht]

/-- A client whose `Get` times out gives `http://slow.ru error:timeout`. -/
theorem Request_transport_error_witness :
    Request (fun _ => GetResult.failed true) "http://slow.ru" = "http://slow.ru error:timeout" :=
  (Request_transport_error (fun _ => GetResult.failed true) "http://slow.ru" true rfl).1 rfl

/-- C6: on a 200 response whose body read fails with an error other than `io.EOF`, after any
number of successful reads, `Request` returns the URL followed by ` error:` and the error
text, whatever bytes were delivered before or with the failing read. -/
theorem Request_read_error (client : Client) (url : String) (reads : List (List Nat))
    (last : List Nat) (text : String)
    (h : client url = GetResult.response 200 ⟨reads, last, ReadError.other text⟩) :
    Request client url = url ++ " error:" ++ text := by
  simp only [Request, h, StatusOK, ne_eq, not_true_eq_false, if_false, readLoop_other,
    String.append_assoc]

/-- A body that fails with `unexpected EOF` after delivering bytes gives only the error. -/
theorem Request_read_error_witness :
    Request (fun _ => GetResult.response 200
        ⟨[bytesOf "par"], bytesOf "tial", ReadError.other "unexpected EOF"⟩) "http://cut.ru" =
      "http://cut.ru error:unexpected EOF" :=
  Request_read_error _ "http://cut.ru" [bytesOf "par"] (bytesOf "tial") "unexpected EOF" rfl

/-- C7: for `urlsCount >= 1`, `getParallelCount` is `min (min (max parallelCount 1) 10)
urlsCount`: it lies in `[1, 10]`, never exceeds `urlsCount`, and returns `parallelCount`
itself when `1 <= parallelCount <= min 10 urlsCount`; `(-1, 10)` gives 1, `(11, 10)` gives 10
and `(11, 1)` gives 1. -/
theorem getParallelCount_clamp (parallelCount urlsCount : Int) (h : 1 ≤ urlsCount) :
    getParallelCount parallelCount urlsCount = min (min (max parallelCount 1) 10) urlsCount ∧
    1 ≤ getParallelCount parallelCount urlsCount ∧
    getParallelCount parallelCount urlsCount ≤ 10 ∧
    getParallelCount parallelCount urlsCount ≤ urlsCount ∧
    (1 ≤ parallelCount → parallelCount ≤ min 10 urlsCount →
      getParallelCount parallelCount urlsCount = parallelCount) ∧
    getParallelCount (-1) 10 = 1 ∧ getParallelCount 11 10 = 10 ∧ getParallelCount 11 1 = 1 := by
  refine ⟨?_, ?_, ?_, ?_, ?_, by decide, by decide, by decide⟩ <;>
    simp only [getParallelCount, limitParallelReq, defaultParallelReq, min_def, max_def] <;>
    split_ifs <;> omega

/-- With three URLs, a requested count of 7 is cut to 3. -/
theorem getParallelCount_clamp_witness : (1 : Int) ≤ 3 ∧ getParallelCount 7 3 = 3 :=
  ⟨by decide, (getParallelCount_clamp 7 3 (by decide)).1.trans (by decide)⟩

/-! ### `getURLS` -/

theorem mem_firstOccurrences (l : List String) (u : String) :
    u ∈ firstOccurrences l ↔ u ∈ l := by
  induction l with
  | nil => simp [firstOccurrences]
  | cons x xs ih =>
    simp only [firstOccurrences, List.mem_cons, List.mem_filter, ih, decide_eq_true_eq]
    by_cases hux : u = x <;> simp [hux]

theorem firstOccurrences_nodup (l : List String) : (firstOccurrences l).Nodup := by
  induction l with
  | nil => simp [firstOccurrences]
  | cons x xs ih =>
    simp only [firstOccurrences, List.nodup_cons, List.mem_filter, decide_eq_true_eq]
    exact ⟨fun hx => hx.2 rfl, ih.filter _⟩

theorem unseen_eq_filter (l : List String) : ∀ seen : List String,
    unseen seen l = (firstOccurrences l).filter (fun y => decide (y ∉ seen)) := by
  induction l with
  | nil => intro seen; simp [unseen, firstOccurrences]
  | cons x xs ih =>
    intro seen
    by_cases hx : x ∈ seen
    · simp only [unseen, hx, if_true, firstOccurrences, ih, List.filter_cons, not_true_eq_false,
        decide_False, Bool.false_eq_true, if_false, List.filter_filter]
      apply List.filter_congr
      intro y _
      by_cases hy : y ∈ seen
      · simp [hy]
      · have hyx : y ≠ x := fun e => hy (e ▸ hx)
        simp [hy, hyx]
    · simp only [unseen, hx, if_false, firstOccurrences, ih, List.filter_cons, not_false_eq_true,
        decide_True, if_true, List.filter_filter]
      congr 1
      apply List.filter_congr
      intro y _
      by_cases hyx : y = x <;> simp [hyx, hx]

theorem unseen_nil (l : List String) : unseen [] l = firstOccurrences l := by
  rw [unseen_eq_filter]
  simp

theorem getURLS.loop_ok (parse : String → Option String) (rest : List String) :
    ∀ (result : List String) (storage : String → Option Bool) (out : List String),
      (∀ k, (storage k).isSome = true ↔ k ∈ result) →
      getURLS.loop parse rest result storage = (out, none) →
      out = result ++ unseen result (rest.map normalizeArg) := by
  induction rest with
  | nil =>
    intro result storage out _ h
    simp only [getURLS.loop, Prod.mk.injEq, and_true] at h
    simp [unseen, h]
  | cons val rest ih =>
    intro result storage out hst h
    simp only [getURLS.loop] at h
    cases hp : parse (normalizeArg val) with
    | some err => simp [hp] at h
    | none =>
      simp only [hp] at h
      by_cases hin : normalizeArg val ∈ result
      · have hsome : (storage (normalizeArg val)).isSome = true := (hst _).2 hin
        have hnone : (storage (normalizeArg val)).isNone = false := by
          cases hs : storage (normalizeArg val) with
          | none => simp [hs] at hsome
          | some b => rfl
        simp only [hnone, Bool.false_eq_true, if_false] at h
        have hst2 : ∀ k, ((fun k => if k = normalizeArg val then some true else storage k) k).isSome
            = true ↔ k ∈ result := by
          intro k
          by_cases hk : k = normalizeArg val
          · simp [hk, hin]
          · simp [hk, hst k]
        rw [ih result _ out hst2 h]
        simp [unseen, hin]
      · have hnone : (storage (normalizeArg val)).isNone = true := by
          cases hs : storage (normalizeArg val) with
          | none => rfl
          | some b =>
            have := (hst (normalizeArg val)).1 (by simp [hs])
            exact absurd this hin
        simp only [hnone, if_true] at h
        have hst2 : ∀ k, ((fun k => if k = normalizeArg val then some true else storage k) k).isSome
            = true ↔ k ∈ result ++ [normalizeArg val] := by
          intro k
          by_cases hk : k = normalizeArg val
          · simp [hk]
          · simp [hk, hst k]
        rw [ih _ _ out hst2 h]
        simp [unseen, hin]

theorem getURLS_ok (parse : String → Option String) (urls out : List String)
    (h : getURLS parse urls = (out, none)) :
    urls ≠ [] ∧ out = firstOccurrences (urls.map normalizeArg) := by
  unfold getURLS at h
  by_cases hlen : urls.length = 0
  · simp [hlen] at h
  · simp only [hlen, if_false] at h
    refine ⟨fun e => hlen (by simp [e]), ?_⟩
    have := getURLS.loop_ok parse urls [] (fun _ => none) out (by simp) h
    simpa [unseen_nil] using this

theorem HasPrefix_http_of_url (val : String)
    (h : HasPrefix val "http://" = true ∨ HasPrefix val "https://" = true) :
    HasPrefix val "http" = true := by
  simp only [HasPrefix, List.isPrefixOf_iff_prefix] at h ⊢
  have h1 : "http".toList <+: "http://".toList := by decide
  have h2 : "http".toList <+: "https://".toList := by decide
  rcases h with h | h
  · exact h1.trans h
  · exact h2.trans h

/-- C8: when `getURLS` returns no error, its list has no duplicates and is the list of
normalized arguments with every repetition after the first removed: the same URLs, each once,
in the order of first occurrence. `twitter.com, http://twitter.com` gives the single
`http://twitter.com`, and `twitter.com, http://ya.ru` gives both in order. -/
theorem getURLS_first_occurrences (parse : String → Option String) (urls out : List String)
    (h : getURLS parse urls = (out, none)) :
    out.Nodup ∧ out = firstOccurrences (urls.map normalizeArg) ∧
    (∀ u, u ∈ out ↔ u ∈ urls.map normalizeArg) ∧
    (parse "http://twitter.com" = none →
      getURLS parse ["twitter.com", "http://twitter.com"] = (["http://twitter.com"], none)) ∧
    (parse "http://twitter.com" = none → parse "http://ya.ru" = none →
      getURLS parse ["twitter.com", "http://ya.ru"] =
        (["http://twitter.com", "http://ya.ru"], none)) := by
  have hout := (getURLS_ok parse urls out h).2
  have n1 : normalizeArg "twitter.com" = "http://twitter.com" := by decide
  have n2 : normalizeArg "http://twitter.com" = "http://twitter.com" := by decide
  have n3 : normalizeArg "http://ya.ru" = "http://ya.ru" := by decide
  have d1 : ("http://ya.ru" = "http://twitter.com") = False := by decide
  refine ⟨?_, hout, ?_, ?_, ?_⟩
  · rw [hout]; exact firstOccurrences_nodup _
  · intro u; rw [hout]; exact mem_firstOccurrences _ u
  · intro h1
    simp [getURLS, getURLS.loop, n1, n2, h1]
  · intro h1 h2
    simp [getURLS, getURLS.loop, n1, n3, h1, h2, d1]

/-- With a validator that accepts everything, `a.ru, b.ru, http://a.ru` gives
`http://a.ru, http://b.ru`: the repeated URL is kept once, at its first place. -/
theorem getURLS_first_occurrences_witness :
    getURLS (fun _ => none) ["a.ru", "b.ru", "http://a.ru"] =
      (["http://a.ru", "http://b.ru"], none) ∧
    (["http://a.ru", "http://b.ru"] : List String).Nodup ∧
    ["http://a.ru", "http://b.ru"] =
      firstOccurrences (["a.ru", "b.ru", "http://a.ru"].map normalizeArg) :=
  ⟨by decide,
    (getURLS_first_occurrences (fun _ => none) ["a.ru", "b.ru", "http://a.ru"]
      ["http://a.ru", "http://b.ru"] (by decide)).1,
    (getURLS_first_occurrences (fun _ => none) ["a.ru", "b.ru", "http://a.ru"]
      ["http://a.ru", "http://b.ru"] (by decide)).2.1⟩

/-- C9, counterexample: `httpbin.org` has no scheme-like prefix and is left without
`http://`, and `ftp://example.com` has one and gets `http://` prepended. -/
theorem normalizeArg_not_by_scheme :
    normalizeBySpec "httpbin.org" = "http://httpbin.org" ∧
    normalizeArg "httpbin.org" = "httpbin.org" ∧
    normalizeBySpec "ftp://example.com" = "ftp://example.com" ∧
    normalizeArg "ftp://example.com" = "http://ftp://example.com" := by
  decide

/-- C9, amended: the normalization step prepends `http://` to every argument that does not
begin with `http`, and leaves every argument beginning with `http://` or `https://`
unchanged; so a bare hostname that does not begin with `http` is validated as `http://` plus
the hostname and, once accepted, emitted so. -/
theorem normalizeArg_without_http (val : String) (h : HasPrefix val "http" = false) :
    normalizeArg val = "http://" ++ val ∧
    (∀ parse : String → Option String, parse ("http://" ++ val) = none →
      getURLS parse [val] = (["http://" ++ val], none)) ∧
    (∀ (parse : String → Option String) (err : String), parse ("http://" ++ val) = some err →
      getURLS parse [val] = ([], some (Error.parse err))) ∧
    (∀ u : String, HasPrefix u "http://" = true ∨ HasPrefix u "https://" = true →
      normalizeArg u = u) := by
  have hn : normalizeArg val = "http://" ++ val := by simp [normalizeArg, h]
  refine ⟨hn, ?_, ?_, ?_⟩
  · intro parse hp
    simp [getURLS, getURLS.loop, hn, hp]
  · intro parse err hp
    simp [getURLS, getURLS.loop, hn, hp]
  · intro u hu
    simp [normalizeArg, HasPrefix_http_of_url u hu]

/-- The bare hostname `twitter.com` of `TestGetURLS` becomes `http://twitter.com`. -/
theorem normalizeArg_without_http_witness :
    HasPrefix "twitter.com" "http" = false ∧
    normalizeArg "twitter.com" = "http://" ++ "twitter.com" :=
  ⟨by decide, (normalizeArg_without_http "twitter.com" (by decide)).1⟩

/-- C10: when `getURLS` returns no error its list is non-empty (the empty argument list is
rejected with `NoUrlsError`), so the worker count `getParallelCount` computes from its length
lies between 1 and the smaller of 10 and the number of URLs. -/
theorem getURLS_nonempty_and_count (parse : String → Option String) (urls out : List String)
    (p : Int) (h : getURLS parse urls = (out, none)) :
    out ≠ [] ∧ getURLS parse [] = ([], some Error.NoUrlsError) ∧
    1 ≤ getParallelCount p out.length ∧
    getParallelCount p out.length ≤ min 10 (out.length : Int) := by
  obtain ⟨hne, hout⟩ := getURLS_ok parse urls out h
  have hout_ne : out ≠ [] := by
    rw [hout]
    cases urls with
    | nil => exact absurd rfl hne
    | cons a as => simp [firstOccurrences]
  have hlen : 1 ≤ (out.length : Int) := by
    have : 0 < out.length := List.length_pos.2 hout_ne
    omega
  refine ⟨hout_ne, by simp [getURLS], ?_, ?_⟩ <;>
    simp only [getParallelCount, limitParallelReq, defaultParallelReq, min_def] <;>
    split_ifs <;> omega

/-- Two accepted arguments with a request for 5 workers give 2 workers. -/
theorem getURLS_nonempty_and_count_witness :
    getURLS (fun _ => none) ["a.ru", "b.ru"] = (["http://a.ru", "http://b.ru"], none) ∧
    getParallelCount 5 (["http://a.ru", "http://b.ru"] : List String).length ≤
      min 10 ((["http://a.ru", "http://b.ru"] : List String).length : Int) :=
  ⟨by decide,
    (getURLS_nonempty_and_count (fun _ => none) ["a.ru", "b.ru"]
      ["http://a.ru", "http://b.ru"] 5 (by decide)).2.2.2⟩

/-! ### `Process` -/

theorem utf8ByteSize_go_append (a b : List Char) :
    String.utf8ByteSize.go (a ++ b) = String.utf8ByteSize.go a + String.utf8ByteSize.go b := by
  induction a with
  | nil => simp [String.utf8ByteSize.go]
  | cons c cs ih =>
    show String.utf8ByteSize.go (cs ++ b) + c.utf8Size = _
    rw [ih]
    simp only [String.utf8ByteSize.go]
    omega

theorem utf8ByteSize_append (s t : String) :
    (s ++ t).utf8ByteSize = s.utf8ByteSize + t.utf8ByteSize := by
  cases s with
  | mk a =>
    cases t with
    | mk b => exact utf8ByteSize_go_append a b

theorem Request_nonempty (client : Client) (url : String) :
    (Request client url).utf8ByteSize ≠ 0 := by
  have e1 : " error:timeout".utf8ByteSize = 14 := by decide
  have e2 : " error:unknown".utf8ByteSize = 14 := by decide
  have e3 : " error:".utf8ByteSize = 7 := by decide
  have e4 : " ".utf8ByteSize = 1 := by decide
  unfold Request
  cases client url with
  | failed isTimeout =>
    cases isTimeout <;> simp only [Bool.false_eq_true, if_false, if_true, utf8ByteSize_append, e1, e2]
      <;> omega
  | response StatusCode body =>
    by_cases hc : StatusCode ≠ StatusOK
    · simp only [hc, if_true, utf8ByteSize_append, e3, ne_eq, not_false_eq_true]; omega
    · simp only [hc, if_false]
      cases herr : body.err with
      | EOF => simp only [readLoop_EOF, utf8ByteSize_append, e4]; omega
      | other text => simp only [readLoop_other, utf8ByteSize_append, e3]; omega

theorem step_single (client : Client) (q : List String) (r : String) (w : Worker) (i : Nat)
    (st : Pool) (h : step client ⟨q, r, [w]⟩ i = some st) :
    ∃ q2 r2 w2, st = ⟨q2, r2, [w2]⟩ ∧ outcome client q2 r2 w2 = outcome client q r w := by
  cases i with
  | succ n => simp [step] at h
  | zero =>
    cases w with
    | receive =>
      cases q with
      | nil =>
        simp only [step, List.get?, List.set, Option.some.injEq] at h
        exact ⟨_, _, _, h.symm, by simp [outcome, drain]⟩
      | cons u q2 =>
        simp only [step, List.get?, List.set, Option.some.injEq] at h
        exact ⟨_, _, _, h.symm, by simp [outcome, drain]⟩
    | request u =>
      simp only [step, List.get?, List.set, Option.some.injEq] at h
      exact ⟨_, _, _, h.symm, by simp [outcome]⟩
    | lenCheck resp =>
      simp only [step, List.get?, List.set, Option.some.injEq] at h
      refine ⟨_, _, _, h.symm, ?_⟩
      by_cases hr : r.utf8ByteSize = 0
      · simp [hr, outcome, appendResp]
      · simp [hr, outcome, appendResp]
    | writeSep resp =>
      simp only [step, List.get?, List.set, Option.some.injEq] at h
      exact ⟨_, _, _, h.symm, by simp [outcome]⟩
    | writeResp resp =>
      simp only [step, List.get?, List.set, Option.some.injEq] at h
      exact ⟨_, _, _, h.symm, by simp [outcome]⟩
    | done => simp [step] at h

theorem run_single (client : Client) (sched : List Nat) :
    ∀ (q : List String) (r : String) (w : Worker) (st : Pool),
      run client ⟨q, r, [w]⟩ sched = some st →
      ∃ q2 r2 w2, st = ⟨q2, r2, [w2]⟩ ∧ outcome client q2 r2 w2 = outcome client q r w := by
  induction sched with
  | nil =>
    intro q r w st h
    simp only [run, Option.some.injEq] at h
    exact ⟨q, r, w, h.symm, rfl⟩
  | cons i sched ih =>
    intro q r w st h
    simp only [run] at h
    cases hs : step client ⟨q, r, [w]⟩ i with
    | none => simp [hs] at h
    | some st1 =>
      simp only [hs] at h
      obtain ⟨q1, r1, w1, rfl, ho1⟩ := step_single client q r w i st1 hs
      obtain ⟨q2, r2, w2, rfl, ho2⟩ := ih q1 r1 w1 st h
      exact ⟨q2, r2, w2, rfl, ho2.trans ho1⟩

theorem run_cons_of_step (client : Client) (st st1 : Pool) (i : Nat) (sched : List Nat)
    (h : step client st i = some st1) : run client st (i :: sched) = run client st1 sched := by
  simp [run, h]

theorem run_single_finish (client : Client) (q : List String) :
    ∀ r : String, ∃ sched : List Nat,
      run client ⟨q, r, [Worker.receive]⟩ sched = some ⟨[], drain client r q, [Worker.done]⟩ := by
  induction q with
  | nil =>
    intro r
    exact ⟨[0], by simp [run, step, drain]⟩
  | cons u q ih =>
    intro r
    obtain ⟨s, hs⟩ := ih (appendResp r (Request client u))
    by_cases hr : r.utf8ByteSize ≠ 0
    · refine ⟨0 :: 0 :: 0 :: 0 :: 0 :: s, ?_⟩
      have hd : drain client r (u :: q) = drain client (r ++ " " ++ Request client u) q := by
        simp only [drain, appendResp, if_pos hr]
      rw [appendResp, if_pos hr] at hs
      rw [run_cons_of_step client ⟨u :: q, r, [Worker.receive]⟩
          ⟨q, r, [Worker.request u]⟩ 0 _ rfl,
        run_cons_of_step client ⟨q, r, [Worker.request u]⟩
          ⟨q, r, [Worker.lenCheck (Request client u)]⟩ 0 _ rfl,
        run_cons_of_step client ⟨q, r, [Worker.lenCheck (Request client u)]⟩
          ⟨q, r, [Worker.writeSep (Request client u)]⟩ 0 _ (by simp [step, hr]),
        run_cons_of_step client ⟨q, r, [Worker.writeSep (Request client u)]⟩
          ⟨q, r ++ " ", [Worker.writeResp (Request client u)]⟩ 0 _ rfl,
        run_cons_of_step client ⟨q, r ++ " ", [Worker.writeResp (Request client u)]⟩
          ⟨q, r ++ " " ++ Request client u, [Worker.receive]⟩ 0 _ rfl,
        hd]
      exact hs
    · refine ⟨0 :: 0 :: 0 :: 0 :: s, ?_⟩
      have hd : drain client r (u :: q) = drain client (r ++ Request client u) q := by
        simp only [drain, appendResp, if_neg hr]
      rw [appendResp, if_neg hr] at hs
      rw [run_cons_of_step client ⟨u :: q, r, [Worker.receive]⟩
          ⟨q, r, [Worker.request u]⟩ 0 _ rfl,
        run_cons_of_step client ⟨q, r, [Worker.request u]⟩
          ⟨q, r, [Worker.lenCheck (Request client u)]⟩ 0 _ rfl,
        run_cons_of_step client ⟨q, r, [Worker.lenCheck (Request client u)]⟩
          ⟨q, r, [Worker.writeResp (Request client u)]⟩ 0 _ (by simp [step, hr]),
        run_cons_of_step client ⟨q, r, [Worker.writeResp (Request client u)]⟩
          ⟨q, r ++ Request client u, [Worker.receive]⟩ 0 _ rfl,
        hd]
      exact hs

theorem drain_go (client : Client) (us : List String) :
    ∀ r : String, r.utf8ByteSize ≠ 0 →
      drain client r us = String.intercalate.go r " " (us.map (Request client)) := by
  induction us with
  | nil => intro r _; simp [drain, String.intercalate.go]
  | cons u us ih =>
    intro r hr
    simp only [drain, appendResp, hr, if_true, List.map_cons, String.intercalate.go, ne_eq,
      not_false_eq_true]
    apply ih
    simp only [utf8ByteSize_append]
    have e4 : " ".utf8ByteSize = 1 := by decide
    omega

theorem drain_eq_intercalate (client : Client) (urls : List String) (h : urls ≠ []) :
    drain client "" urls = " ".intercalate (urls.map (Request client)) := by
  cases urls with
  | nil => exact absurd rfl h
  | cons u us =>
    have h0 : appendResp "" (Request client u) = Request client u := by
      have e0 : "".utf8ByteSize = 0 := by decide
      simp [appendResp, e0]
    simp only [drain, h0, List.map_cons, String.intercalate]
    exact drain_go client us _ (Request_nonempty client u)

theorem Process_single_sound (client : Client) (urls : List String) (sched : List Nat)
    (out : String) (h : Process client 1 urls sched = some out) :
    out = drain client "" urls := by
  unfold Process at h
  have h1 : List.replicate (1 : Int).toNat Worker.receive = [Worker.receive] := by decide
  rw [h1] at h
  cases hrun : run client ⟨urls, "", [Worker.receive]⟩ sched with
  | none => simp [hrun] at h
  | some st =>
    obtain ⟨q2, r2, w2, rfl, ho⟩ := run_single client sched urls "" Worker.receive st hrun
    simp only [hrun] at h
    simp at h
    obtain ⟨⟨hq, hw⟩, hr⟩ := h
    subst hq hw hr
    simpa [outcome] using ho

theorem Process_single_complete (client : Client) (urls : List String) :
    ∃ sched : List Nat, Process client 1 urls sched = some (drain client "" urls) := by
  obtain ⟨s, hs⟩ := run_single_finish client urls ""
  refine ⟨s, ?_⟩
  unfold Process
  have h1 : List.replicate (1 : Int).toNat Worker.receive = [Worker.receive] := by decide
  rw [h1, hs]
  simp

/-- C3: with a single worker and a non-empty URL list, `Process` returns (some schedule
reaches the return, and every schedule that reaches it gives the same string) the `Request`
results of the URLs in input order, joined by one space each, with no leading or trailing
space; for a one-element list that is `Request url` itself. -/
theorem Process_single_worker (client : Client) (urls : List String) (h : urls ≠ []) :
    (∃ sched : List Nat,
      Process client 1 urls sched = some (" ".intercalate (urls.map (Request client)))) ∧
    (∀ (sched : List Nat) (out : String), Process client 1 urls sched = some out →
      out = " ".intercalate (urls.map (Request client))) ∧
    (∀ url : String, urls = [url] →
      ∀ (sched : List Nat) (out : String), Process client 1 urls sched = some out →
        out = Request client url) := by
  have hsound : ∀ (sched : List Nat) (out : String), Process client 1 urls sched = some out →
      out = " ".intercalate (urls.map (Request client)) := by
    intro sched out hp
    rw [Process_single_sound client urls sched out hp, drain_eq_intercalate client urls h]
  refine ⟨?_, hsound, ?_⟩
  · obtain ⟨s, hs⟩ := Process_single_complete client urls
    exact ⟨s, by rw [hs, drain_eq_intercalate client urls h]⟩
  · intro url hu sched out hp
    rw [hsound sched out hp, hu]
    rfl

set_option maxRecDepth 1000000 in
/-- The two URLs of `TestProcess` with one worker give both results in input order. -/
theorem Process_single_worker_witness :
    ∃ sched : List Nat, Process testProcessClient 1 ["http://one", "http://two"] sched = some
      "http://one f97c5d29941bfb1b2fdab0874906ab82 http://two b8a9f715dbb64fd5c56e7783c6820a61" := by
  obtain ⟨s, hs⟩ := (Process_single_worker testProcessClient ["http://one", "http://two"]
    (by decide)).1
  refine ⟨s, hs.trans ?_⟩
  decide

set_option maxRecDepth 1000000 in
/-- C2, the code at a failing input: with two workers on the two URLs of `TestProcess`, the
schedule in which both workers test `result.Len()` before either writes ends with the two
results written back to back, which is neither order's single-space join. -/
theorem Process_two_workers_lose_separator :
    Process testProcessClient 2 ["http://one", "http://two"] [0, 1, 0, 1, 0, 1, 0, 1, 0, 1] =
      some "http://one f97c5d29941bfb1b2fdab0874906ab82http://two b8a9f715dbb64fd5c56e7783c6820a61" ∧
    "http://one f97c5d29941bfb1b2fdab0874906ab82http://two b8a9f715dbb64fd5c56e7783c6820a61" ≠
      " ".intercalate (["http://one", "http://two"].map (Request testProcessClient)) ∧
    "http://one f97c5d29941bfb1b2fdab0874906ab82http://two b8a9f715dbb64fd5c56e7783c6820a61" ≠
      " ".intercalate (["http://two", "http://one"].map (Request testProcessClient)) := by
  decide

end Curl
